import Mathlib

/-!
Verification development for the benchmark-rs benchmarking harness.

The Rust source is shallowly embedded: pure functions become Lean
functions, mutation of `&mut self` becomes explicit state passing, the
wall clock becomes an explicit `now : Nat` parameter (nanoseconds), and
`f64` arithmetic is modelled over the exact rationals extended with the
IEEE special values (NaN and positive infinity) that the embedded
expressions can actually produce.
-/

set_option autoImplicit false

/-- Model of the `f64` values produced by the percentage-change expression
`(current as f64 / (previous as f64 / 100.0)) - 100.0` in
`Benchmarks::compare_median`: a finite value (modelled exactly as a
rational, abstracting the IEEE rounding of finite arithmetic), the NaN
produced by `0.0 / 0.0`, or the positive infinity produced by
`x / 0.0` for `x > 0`. -/
inductive FVal where
  | nan : FVal
  | posInf : FVal
  | fin (q : ℚ) : FVal
deriving DecidableEq, Repr

/-- IEEE `f64::abs` on the modelled values: `NaN.abs() = NaN`,
`inf.abs() = inf`, finite absolute value otherwise. -/
def FVal.fabs : FVal → FVal
  | .nan => .nan
  | .posInf => .posInf
  | .fin q => .fin |q|

/-- IEEE `<=` on the modelled values: any comparison with NaN is false,
`inf <= inf` is true, `inf <= finite` is false, `finite <= inf` is true. -/
def FVal.fle : FVal → FVal → Bool
  | .nan, _ => false
  | _, .nan => false
  | .posInf, .posInf => true
  | .posInf, .fin _ => false
  | .fin _, .posInf => true
  | .fin a, .fin b => decide (a ≤ b)

/-- IEEE `<` on the modelled values. -/
def FVal.flt : FVal → FVal → Bool
  | .nan, _ => false
  | _, .nan => false
  | .posInf, _ => false
  | .fin _, .posInf => true
  | .fin a, .fin b => decide (a < b)

/-- The expression `(current as f64 / (previous as f64 / 100.0)) - 100.0`
from `Benchmarks::compare_median` (src/benchmarks.rs). When
`previous = 0` the divisor `previous as f64 / 100.0` is `0.0`, so the
division yields NaN (when `current = 0`) or `+inf` (when `current > 0`);
otherwise the result is finite. -/
def changeVal (current previous : ℕ) : FVal :=
  if previous = 0 then
    if current = 0 then .nan else .posInf
  else
    .fin ((current : ℚ) / ((previous : ℚ) / 100) - 100)

/-- `BenchmarkComparison` (src/benchmark_comparison.rs): the tagged result
of comparing one workload point, carrying the point identity, previous
and current median nanoseconds, and the signed percentage change. -/
inductive BenchmarkComparison where
  | Less (point : String) (previous current : ℕ) (change : FVal)
  | Equal (point : String) (previous current : ℕ) (change : FVal)
  | Greater (point : String) (previous current : ℕ) (change : FVal)
deriving DecidableEq, Repr

/-- Whether a comparison is the `Equal` variant. -/
def BenchmarkComparison.isEqual : BenchmarkComparison → Bool
  | .Equal _ _ _ _ => true
  | _ => false

/-- Whether a comparison is the `Less` variant. -/
def BenchmarkComparison.isLess : BenchmarkComparison → Bool
  | .Less _ _ _ _ => true
  | _ => false

/-- Whether a comparison is the `Greater` variant. -/
def BenchmarkComparison.isGreater : BenchmarkComparison → Bool
  | .Greater _ _ _ _ => true
  | _ => false

/-- The `change` payload of a comparison. -/
def BenchmarkComparison.changePayload : BenchmarkComparison → FVal
  | .Less _ _ _ c => c
  | .Equal _ _ _ c => c
  | .Greater _ _ _ c => c

/-- `Benchmarks::compare_median` (src/benchmarks.rs, lines 210-240):
compute `change`, then classify: `Equal` when the medians are equal as
integers or `change.abs() <= threshold.abs()`; otherwise `Less` when
`change < 0.0`; otherwise `Greater`. The threshold is a finite `f64`,
modelled as a rational. -/
def compareMedian (point : String) (current previous : ℕ) (threshold : ℚ) :
    BenchmarkComparison :=
  if current = previous ∨
      ((changeVal current previous).fabs.fle (.fin |threshold|)) = true then
    .Equal point previous current (changeVal current previous)
  else if (changeVal current previous).flt (.fin 0) = true then
    .Less point previous current (changeVal current previous)
  else
    .Greater point previous current (changeVal current previous)

/-- C1: for every pair of medians and every threshold, `compare_median`
carries the signed percentage change computed as
`(current / (previous / 100)) - 100` (stated exactly for nonzero previous
median, where the formula is defined), classifies the point `Equal`
exactly when the medians are exactly equal or `|change| <= |threshold|`,
`Less` exactly when not `Equal` and `change < 0`, and `Greater`
otherwise; the sign of the threshold is ignored. -/
theorem compare_median_classification (point : String) (current previous : ℕ)
    (threshold : ℚ) (hprev : previous ≠ 0) :
    (compareMedian point current previous threshold).changePayload
        = changeVal current previous
    ∧ changeVal current previous
        = .fin ((current : ℚ) / ((previous : ℚ) / 100) - 100)
    ∧ ((compareMedian point current previous threshold).isEqual = true ↔
        (current = previous ∨
          ((changeVal current previous).fabs.fle (.fin |threshold|)) = true))
    ∧ ((compareMedian point current previous threshold).isLess = true ↔
        (¬ (current = previous ∨
            ((changeVal current previous).fabs.fle (.fin |threshold|)) = true)
          ∧ ((changeVal current previous).flt (.fin 0)) = true))
    ∧ ((compareMedian point current previous threshold).isGreater = true ↔
        (¬ (current = previous ∨
            ((changeVal current previous).fabs.fle (.fin |threshold|)) = true)
          ∧ ¬ ((changeVal current previous).flt (.fin 0)) = true))
    ∧ compareMedian point current previous threshold
        = compareMedian point current previous (-threshold) := by
  refine ⟨?_, ?_, ?_, ?_, ?_, ?_⟩
  · unfold compareMedian
    split
    · rfl
    · split <;> rfl
  · simp [changeVal, hprev]
  · unfold compareMedian
    split
    · rename_i h
      exact iff_of_true rfl h
    · rename_i h
      refine iff_of_false ?_ h
      split <;> simp [BenchmarkComparison.isEqual]
  · unfold compareMedian
    split
    · rename_i h
      refine iff_of_false ?_ ?_
      · simp [BenchmarkComparison.isLess]
      · intro hc
        exact hc.1 h
    · rename_i h
      split
      · rename_i hf
        exact iff_of_true rfl ⟨h, hf⟩
      · rename_i hf
        refine iff_of_false ?_ ?_
        · simp [BenchmarkComparison.isLess]
        · intro hc
          exact hf hc.2
  · unfold compareMedian
    split
    · rename_i h
      refine iff_of_false ?_ ?_
      · simp [BenchmarkComparison.isGreater]
      · intro hc
        exact hc.1 h
    · rename_i h
      split
      · rename_i hf
        refine iff_of_false ?_ ?_
        · simp [BenchmarkComparison.isGreater]
        · intro hc
          exact hc.2 hf
      · rename_i hf
        exact iff_of_true rfl ⟨h, hf⟩
  · unfold compareMedian
    rw [abs_neg]

/-- Witness for C1 at medians 150 and 100 with threshold 10. -/
theorem compare_median_classification_witness :
    (compareMedian "p" 150 100 10).changePayload = changeVal 150 100
    ∧ changeVal 150 100 = .fin ((150 : ℚ) / ((100 : ℚ) / 100) - 100)
    ∧ ((compareMedian "p" 150 100 10).isEqual = true ↔
        ((150 : ℕ) = 100 ∨
          ((changeVal 150 100).fabs.fle (.fin |(10 : ℚ)|)) = true))
    ∧ ((compareMedian "p" 150 100 10).isLess = true ↔
        (¬ ((150 : ℕ) = 100 ∨
            ((changeVal 150 100).fabs.fle (.fin |(10 : ℚ)|)) = true)
          ∧ ((changeVal 150 100).flt (.fin 0)) = true))
    ∧ ((compareMedian "p" 150 100 10).isGreater = true ↔
        (¬ ((150 : ℕ) = 100 ∨
            ((changeVal 150 100).fabs.fle (.fin |(10 : ℚ)|)) = true)
          ∧ ¬ ((changeVal 150 100).flt (.fin 0)) = true))
    ∧ compareMedian "p" 150 100 10 = compareMedian "p" 150 100 (-10) :=
  compare_median_classification "p" 150 100 10 (by decide)

/-- C10: comparing medians is total when the previous median is 0: when
both medians are 0 the integer-equality test fires (before the change
magnitude, which is NaN) and the point is `Equal`; when the previous
median is 0 and the current median is positive the change is `+inf` and
the point is `Greater`. -/
theorem compare_median_zero_previous (point : String) (threshold : ℚ)
    (current : ℕ) (hcur : 0 < current) :
    (compareMedian point 0 0 threshold).isEqual = true
    ∧ (compareMedian point 0 0 threshold).changePayload = .nan
    ∧ (compareMedian point current 0 threshold).isGreater = true
    ∧ (compareMedian point current 0 threshold).changePayload = .posInf := by
  have hc : current ≠ 0 := Nat.pos_iff_ne_zero.mp hcur
  refine ⟨?_, ?_, ?_, ?_⟩
  · simp [compareMedian, changeVal, BenchmarkComparison.isEqual]
  · simp [compareMedian, changeVal, BenchmarkComparison.changePayload]
  · simp [compareMedian, changeVal, hc, FVal.fabs, FVal.fle, FVal.flt,
      BenchmarkComparison.isGreater]
  · simp [compareMedian, changeVal, hc, FVal.fabs, FVal.fle, FVal.flt,
      BenchmarkComparison.changePayload]

/-- Witness for C10 at current median 5 and threshold 1000. -/
theorem compare_median_zero_previous_witness :
    (compareMedian "p" 0 0 1000).isEqual = true
    ∧ (compareMedian "p" 0 0 1000).changePayload = .nan
    ∧ (compareMedian "p" 5 0 1000).isGreater = true
    ∧ (compareMedian "p" 5 0 1000).changePayload = .posInf :=
  compare_median_zero_previous "p" 1000 5 (by decide)

/-- `StopWatch` (src/stopwatch.rs): accumulated duration, the checkpoint
instant of the last start, and the stopped flag. Durations and instants
are nanosecond counts; the wall clock is passed explicitly as `now`. -/
structure StopWatch where
  accumulated : ℕ
  checkpoint : ℕ
  isStopped : Bool
deriving DecidableEq, Repr

/-- `StopWatch::new`: zero accumulated, checkpoint at the current
instant, stopped. -/
def StopWatch.mk0 (now : ℕ) : StopWatch :=
  ⟨0, now, true⟩

/-- `StopWatch::start`: when stopped, move the checkpoint to `now` and
mark running; when already running, do nothing. -/
def StopWatch.start (now : ℕ) (sw : StopWatch) : StopWatch :=
  if sw.isStopped then { sw with checkpoint := now, isStopped := false } else sw

/-- `StopWatch::resume` delegates to `start`. -/
def StopWatch.resume (now : ℕ) (sw : StopWatch) : StopWatch :=
  sw.start now

/-- `StopWatch::stop`: when running, add `checkpoint.elapsed()`
(`now - checkpoint`, nonnegative since the monotonic clock never runs
backwards) to the accumulator and mark stopped; when already stopped, do
nothing. -/
def StopWatch.stop (now : ℕ) (sw : StopWatch) : StopWatch :=
  if sw.isStopped then sw
  else { sw with accumulated := sw.accumulated + (now - sw.checkpoint),
                 isStopped := true }

/-- `StopWatch::pause` delegates to `stop`. -/
def StopWatch.pause (now : ℕ) (sw : StopWatch) : StopWatch :=
  sw.stop now

/-- `StopWatch::reset`: zero the accumulator, move the checkpoint to
`now`, stopped. -/
def StopWatch.reset (now : ℕ) (_sw : StopWatch) : StopWatch :=
  ⟨0, now, true⟩

/-- `StopWatch::accumulated`: returns the stored accumulator field,
taking `&self` (no mutation). It does not add the in-flight interval. -/
def StopWatch.accumulatedValue (sw : StopWatch) : ℕ :=
  sw.accumulated

/-- The duration value formatted by `impl Display for StopWatch`: the
stored accumulator, plus `checkpoint.elapsed()` when the watch is
running. -/
def StopWatch.displayNanos (now : ℕ) (sw : StopWatch) : ℕ :=
  if sw.isStopped then sw.accumulated else sw.accumulated + (now - sw.checkpoint)

/-- C2 counterexample: a watch started at instant 0 and read at instant 5
is running with an in-flight interval of 5 ns, yet `accumulated()`
returns 0, not the in-flight-inclusive total 5. -/
theorem accumulated_excludes_inflight_cex :
    ((StopWatch.mk0 0).start 0).isStopped = false
    ∧ StopWatch.displayNanos 5 ((StopWatch.mk0 0).start 0) = 5
    ∧ StopWatch.accumulatedValue ((StopWatch.mk0 0).start 0) ≠ 5 := by
  refine ⟨rfl, rfl, ?_⟩
  decide

/-- C2 amended: `accumulated()` returns the stored accumulated duration
without mutating the watch, excluding any in-flight interval; the
in-flight interval is included only by the `Display` rendering, or after
an explicit `stop` (whose result's accumulator equals the `Display`
value at the instant of stopping). -/
theorem accumulated_amended (sw : StopWatch) (now : ℕ) :
    StopWatch.accumulatedValue sw = sw.accumulated
    ∧ StopWatch.displayNanos now sw
        = sw.accumulated + (if sw.isStopped then 0 else now - sw.checkpoint)
    ∧ StopWatch.accumulatedValue (sw.stop now) = StopWatch.displayNanos now sw := by
  refine ⟨rfl, ?_, ?_⟩
  · unfold StopWatch.displayNanos
    split <;> simp
  · unfold StopWatch.stop StopWatch.displayNanos StopWatch.accumulatedValue
    split <;> simp

/-- Left-pad a number with zeros to the given width (the fixed-width
fields of the chrono `%H:%M:%S.%3f` rendering). -/
def padZeros (width n : ℕ) : String :=
  let s := toString n
  String.mk (List.replicate (width - s.length) '0') ++ s

/-- `RunSummary::format_elapsed_nanos` (src/run_summary.rs): split `t`
nanoseconds into seconds and subseconds and render the chrono format
`%H:%M:%S.%3f` of the corresponding timestamp: hour of day, minute,
second, and the top three digits of the fractional second. -/
def formatClockNanos (t : ℕ) : String :=
  let secs := t / 1000000000
  let millis := t % 1000000000 / 1000000
  padZeros 2 (secs / 3600 % 24) ++ ":" ++ padZeros 2 (secs / 60 % 60) ++ ":"
    ++ padZeros 2 (secs % 60) ++ "." ++ padZeros 3 millis

/-- `num_traits::ToPrimitive::to_i64` on a finite `f64` modelled as a
rational: truncate toward zero, `none` when out of the `i64` range. -/
def ratToI64 (q : ℚ) : Option ℤ :=
  let t : ℤ := if 0 ≤ q then ⌊q⌋ else -⌊-q⌋
  if -(2 ^ 63) ≤ t ∧ t ≤ 2 ^ 63 - 1 then some t else none

/-- `RunSummary::format_std_dev_nanos` (src/run_summary.rs, lines 81-96):
`None` renders as the literal string `"null"`; a present value that does
not convert to `i64` also renders `"null"`; otherwise the nanosecond
count is rendered as a clock string. The present value is a square root
in the source, hence nonnegative, so truncation to `ℕ` is faithful. -/
def formatStdDevNanos (stdDevOpt : Option ℚ) : String :=
  match stdDevOpt with
  | none => "null"
  | some stdDev =>
    match ratToI64 stdDev with
    | none => "null"
    | some t => formatClockNanos t.toNat

/-- `statrs` minimum of a sample, cast back to `u64` in
`Benchmark::run`: the least element, or 0 for an empty sample (the
`NaN` from statrs casts to 0). -/
def listMinNat : List ℕ → ℕ
  | [] => 0
  | d :: ds => ds.foldl Nat.min d

/-- `statrs` maximum of a sample, cast back to `u64`: the greatest
element, or 0 for an empty sample. -/
def listMaxNat : List ℕ → ℕ
  | [] => 0
  | d :: ds => ds.foldl Nat.max d

/-- `statrs` median of the sample cast back to `u64`: the middle of the
sorted values, averaging the two middle values for an even-sized sample
(spec section 4.3), truncated to an integer nanosecond count. -/
def medianNanos (ds : List ℕ) : ℕ :=
  let s := ds.mergeSort (fun a b => decide (a ≤ b))
  let n := s.length
  if n = 0 then 0
  else if n % 2 = 1 then s.getD (n / 2) 0
  else (((s.getD (n / 2 - 1) 0 : ℚ) + (s.getD (n / 2) 0 : ℚ)) / 2).floor.toNat

/-- Sample variance of a list of rationals (denominator `n - 1`). -/
def sampleVariance (xs : List ℚ) : ℚ :=
  let n : ℚ := xs.length
  let mean := xs.sum / n
  ((xs.map fun x => (x - mean) ^ 2).sum) / (n - 1)

/-- Modelled from the spec: `statrs::statistics::Data::std_dev`, the
external statistics crate called by `Benchmark::run` (not part of src/),
returns `None` when fewer than 2 samples exist and otherwise the sample
standard deviation. The present value is modelled by the sample variance
(its exact square), since the square root is irrational over `ℚ`;
presence is unchanged by that substitution. -/
def stdDevOf (xs : List ℚ) : Option ℚ :=
  if xs.length < 2 then none else some (sampleVariance xs)

/-- `RunSummary` (src/run_summary.rs): nanosecond, second, and clock
string forms of min/max/median, and optional standard deviation in the
same three forms. -/
structure RunSummary where
  name : String
  rampUp : ℕ
  repeatCount : ℕ
  minNanos : ℕ
  minSec : ℚ
  minStr : String
  maxNanos : ℕ
  maxSec : ℚ
  maxStr : String
  medianNanos : ℕ
  medianSec : ℚ
  medianStr : String
  stdDev : Option ℚ
  stdDevSec : Option ℚ
  stdDevStr : String
deriving DecidableEq, Repr

/-- `RunSummary::new`: derive the second forms (nanoseconds / 1e9) and
the clock-string forms from the nanosecond values. -/
def RunSummary.make (name : String) (rampUp repeatCount : ℕ)
    (minV maxV medianV : ℕ) (stdDevOpt : Option ℚ) : RunSummary :=
  { name := name
    rampUp := rampUp
    repeatCount := repeatCount
    minNanos := minV
    minSec := (minV : ℚ) / 1000000000
    minStr := formatClockNanos minV
    maxNanos := maxV
    maxSec := (maxV : ℚ) / 1000000000
    maxStr := formatClockNanos maxV
    medianNanos := medianV
    medianSec := (medianV : ℚ) / 1000000000
    medianStr := formatClockNanos medianV
    stdDev := stdDevOpt
    stdDevSec := stdDevOpt.map (fun x => x / 1000000000)
    stdDevStr := formatStdDevNanos stdDevOpt }

/-- The `RunSummary` built in `Benchmark::run` from the measured
durations of one workload point (src/benchmark.rs, lines 71-89). -/
def summarizeDurations (name : String) (rampUp repeatCount : ℕ)
    (durations : List ℕ) : RunSummary :=
  RunSummary.make name rampUp repeatCount (listMinNat durations)
    (listMaxNat durations) (medianNanos durations)
    (stdDevOf (List.map (fun d : ℕ => (d : ℚ)) durations))

/-- `SeriesSummary` (src/series_summary.rs): benchmark name,
configuration description, and the ordered `(point, RunSummary)` list. -/
structure SeriesSummary where
  name : String
  config : String
  runs : List (String × RunSummary)
deriving DecidableEq, Repr

/-- `SeriesSummary::new`. -/
def SeriesSummary.mk0 (name config : String) : SeriesSummary :=
  ⟨name, config, []⟩

/-- `SeriesSummary::add`: append one `(point, RunSummary)` pair. -/
def SeriesSummary.add (s : SeriesSummary) (point : String)
    (rs : RunSummary) : SeriesSummary :=
  { s with runs := s.runs ++ [(point, rs)] }

/-- `Benchmark` (src/benchmark.rs): name, rendered configuration,
ordered workload points, repeat count and ramp-up count. The workload
function appears separately as the trial oracle of `Benchmark.run`. -/
structure Benchmark (W : Type) where
  name : String
  configStr : String
  work : List W
  repeatCount : ℕ
  rampUp : ℕ

/-- The ramp-up loop of `Benchmark::run` (src/benchmark.rs, lines 52-55):
invoke the workload function `rampUp` times with a fresh stopwatch,
discarding results, propagating the first error with `?`. The effectful
invocation is modelled by the oracle `trial`, giving each invocation in
order its outcome (error, or the stopwatch duration it would measure). -/
def rampUpLoop {E : Type} (trial : ℕ → Except E ℕ) : ℕ → ℕ → Option E
  | _, 0 => none
  | i, n + 1 =>
    match trial i with
    | .error e => some e
    | .ok _ => rampUpLoop trial (i + 1) n

/-- The measured loop of `Benchmark::run` (src/benchmark.rs, lines
56-70): invoke the workload function `repeat` times, each bracketed by
`start`/`stop` on a fresh stopwatch, collecting the accumulated
durations in order; on the first error stop immediately and surface the
error (the source stashes it, breaks out of both loops, and returns it,
discarding the durations collected so far). -/
def measureLoop {E : Type} (trial : ℕ → Except E ℕ) : ℕ → ℕ → Except E (List ℕ)
  | _, 0 => .ok []
  | i, n + 1 =>
    match trial i with
    | .error e => .error e
    | .ok d =>
      match measureLoop trial (i + 1) n with
      | .error e => .error e
      | .ok ds => .ok (d :: ds)

/-- The outer loop of `Benchmark::run` over the workload points: ramp-up
trials (indices `0..rampUp` for that point), then measured trials
(indices `rampUp..rampUp+repeat`), then the next point. `trial k i` is
the outcome of invocation `i` at the workload point of position `k`;
`conv` is the `From<E>` conversion into the caller-facing error type. -/
def runPoints {W E F : Type} (dispW : W → String) (name : String)
    (rampUp repeatCount : ℕ) (conv : E → F) (trial : ℕ → ℕ → Except E ℕ) :
    ℕ → List W → Except F (List (String × RunSummary))
  | _, [] => .ok []
  | k, w :: ws =>
    match rampUpLoop (trial k) 0 rampUp with
    | some e => .error (conv e)
    | none =>
      match measureLoop (trial k) rampUp repeatCount with
      | .error e => .error (conv e)
      | .ok ds =>
        match runPoints dispW name rampUp repeatCount conv trial (k + 1) ws with
        | .error e => .error e
        | .ok rest =>
          .ok ((dispW w, summarizeDurations name rampUp repeatCount ds) :: rest)

/-- `Benchmark::run` (src/benchmark.rs, lines 48-106): run every workload
point and wrap the collected `(point, RunSummary)` list into a
`SeriesSummary`; any error aborts the run with no summary. -/
def Benchmark.run {W E F : Type} (b : Benchmark W) (dispW : W → String)
    (conv : E → F) (trial : ℕ → ℕ → Except E ℕ) : Except F SeriesSummary :=
  match runPoints dispW b.name b.rampUp b.repeatCount conv trial 0 b.work with
  | .error e => .error e
  | .ok rs => .ok ⟨b.name, b.configStr, rs⟩

/-- The ramp-up loop succeeds when every one of its `n` trials (at
indices `s..s+n`) succeeds. -/
theorem rampUpLoop_ok_none {E : Type} (trial : ℕ → Except E ℕ) :
    ∀ (n s : ℕ), (∀ i, i < n → ∃ d, trial (s + i) = .ok d) →
      rampUpLoop trial s n = none := by
  intro n
  induction n with
  | zero => intro s _; rfl
  | succ n ih =>
    intro s h
    obtain ⟨d, hd⟩ := h 0 (Nat.succ_pos n)
    have hd' : trial s = .ok d := hd
    simp only [rampUpLoop]
    rw [hd']
    exact ih (s + 1) (fun i hi => by
      obtain ⟨d', hd''⟩ := h (i + 1) (by omega)
      refine ⟨d', ?_⟩
      have hsum : s + (i + 1) = s + 1 + i := by omega
      rwa [hsum] at hd'')

/-- The measured loop returns exactly its `n` trial durations when every
trial (at indices `s..s+n`) succeeds. -/
theorem measureLoop_ok {E : Type} (trial : ℕ → Except E ℕ) :
    ∀ (n s : ℕ), (∀ i, i < n → ∃ d, trial (s + i) = .ok d) →
      ∃ ds, measureLoop trial s n = .ok ds ∧ ds.length = n := by
  intro n
  induction n with
  | zero => intro s _; exact ⟨[], rfl, rfl⟩
  | succ n ih =>
    intro s h
    obtain ⟨d, hd⟩ := h 0 (Nat.succ_pos n)
    have hd' : trial s = .ok d := hd
    obtain ⟨ds, hds, hlen⟩ := ih (s + 1) (fun i hi => by
      obtain ⟨d', hd''⟩ := h (i + 1) (by omega)
      refine ⟨d', ?_⟩
      have hsum : s + (i + 1) = s + 1 + i := by omega
      rwa [hsum] at hd'')
    refine ⟨d :: ds, ?_, by simp [hlen]⟩
    simp only [measureLoop]
    rw [hd', hds]

/-- The ramp-up loop surfaces the first error: if trials before relative
index `j` succeed and trial `j` errors, the loop returns that error. -/
theorem rampUpLoop_err {E : Type} (trial : ℕ → Except E ℕ) :
    ∀ (n s j : ℕ) (e : E), j < n →
      (∀ i, i < j → ∃ d, trial (s + i) = .ok d) →
      trial (s + j) = .error e →
      rampUpLoop trial s n = some e := by
  intro n
  induction n with
  | zero => intro s j e hj _ _; omega
  | succ n ih =>
    intro s j e hj hpre herr
    simp only [rampUpLoop]
    cases j with
    | zero =>
      have herr' : trial s = .error e := herr
      rw [herr']
    | succ j' =>
      obtain ⟨d, hd⟩ := hpre 0 (Nat.succ_pos j')
      have hd' : trial s = .ok d := hd
      rw [hd']
      refine ih (s + 1) j' e (by omega) ?_ ?_
      · intro i hi
        obtain ⟨d', hd''⟩ := hpre (i + 1) (by omega)
        refine ⟨d', ?_⟩
        have hsum : s + (i + 1) = s + 1 + i := by omega
        rwa [hsum] at hd''
      · have hsum : s + (j' + 1) = s + 1 + j' := by omega
        rwa [hsum] at herr

/-- The measured loop surfaces the first error in the same way. -/
theorem measureLoop_err {E : Type} (trial : ℕ → Except E ℕ) :
    ∀ (n s j : ℕ) (e : E), j < n →
      (∀ i, i < j → ∃ d, trial (s + i) = .ok d) →
      trial (s + j) = .error e →
      measureLoop trial s n = .error e := by
  intro n
  induction n with
  | zero => intro s j e hj _ _; omega
  | succ n ih =>
    intro s j e hj hpre herr
    simp only [measureLoop]
    cases j with
    | zero =>
      have herr' : trial s = .error e := herr
      rw [herr']
    | succ j' =>
      obtain ⟨d, hd⟩ := hpre 0 (Nat.succ_pos j')
      have hd' : trial s = .ok d := hd
      rw [hd']
      have hrec : measureLoop trial (s + 1) n = .error e := by
        refine ih (s + 1) j' e (by omega) ?_ ?_
        · intro i hi
          obtain ⟨d', hd''⟩ := hpre (i + 1) (by omega)
          refine ⟨d', ?_⟩
          have hsum : s + (i + 1) = s + 1 + i := by omega
          rwa [hsum] at hd''
        · have hsum : s + (j' + 1) = s + 1 + j' := by omega
          rwa [hsum] at herr
      rw [hrec]

/-- When every trial of every point succeeds, `runPoints` returns one
entry per workload point, keyed in declaration order. -/
theorem runPoints_ok {W E F : Type} (dispW : W → String) (name : String)
    (rampUp repeatCount : ℕ) (conv : E → F) (trial : ℕ → ℕ → Except E ℕ)
    (h : ∀ k i, ∃ d, trial k i = .ok d) :
    ∀ (ws : List W) (k : ℕ),
      ∃ rs, runPoints dispW name rampUp repeatCount conv trial k ws = .ok rs
        ∧ rs.map Prod.fst = ws.map dispW := by
  intro ws
  induction ws with
  | nil => intro k; exact ⟨[], rfl, rfl⟩
  | cons w ws ih =>
    intro k
    have hramp := rampUpLoop_ok_none (trial k) rampUp 0 (fun i _ => h k (0 + i))
    obtain ⟨ds, hds, _⟩ :=
      measureLoop_ok (trial k) repeatCount rampUp (fun i _ => h k (rampUp + i))
    obtain ⟨rs, hrs, hmap⟩ := ih (k + 1)
    refine ⟨(dispW w, summarizeDurations name rampUp repeatCount ds) :: rs, ?_, ?_⟩
    · simp only [runPoints]
      rw [hramp, hds, hrs]
    · simp [hmap]

/-- C4: for every positive repeat count, every ramp-up count, and every
trial oracle that always succeeds, `Benchmark::run` over `N` workload
points produces a `SeriesSummary` with exactly `N` point entries, keyed
by the workload points' textual identities in declaration order. -/
theorem run_success_entries {W E F : Type} (b : Benchmark W)
    (dispW : W → String) (conv : E → F) (trial : ℕ → ℕ → Except E ℕ)
    (_hrep : 0 < b.repeatCount)
    (h : ∀ k i, ∃ d, trial k i = .ok d) :
    ∃ s, b.run dispW conv trial = .ok s
      ∧ s.runs.map Prod.fst = b.work.map dispW
      ∧ s.runs.length = b.work.length := by
  obtain ⟨rs, hrs, hmap⟩ :=
    runPoints_ok dispW b.name b.rampUp b.repeatCount conv trial h b.work 0
  refine ⟨⟨b.name, b.configStr, rs⟩, ?_, hmap, ?_⟩
  · unfold Benchmark.run
    rw [hrs]
  · have hlen := congrArg List.length hmap
    simpa using hlen

/-- Witness for C4: two workload points, repeat 2, ramp-up 1, all trials
succeeding with duration 5. -/
theorem run_success_entries_witness :
    ∃ s, (Benchmark.mk "b" "cfg" ([1, 2] : List ℕ) 2 1).run
          (fun w => toString w) (fun e : String => e)
          (fun _ _ => Except.ok 5) = .ok s
      ∧ s.runs.map Prod.fst
          = (Benchmark.mk "b" "cfg" ([1, 2] : List ℕ) 2 1).work.map
              (fun w => toString w)
      ∧ s.runs.length = (Benchmark.mk "b" "cfg" ([1, 2] : List ℕ) 2 1).work.length :=
  run_success_entries _ _ _ _ (by decide) (fun _ _ => ⟨5, rfl⟩)

/-- If the first failing invocation in execution order is trial `m` at
the workload point of position `k0 + k` (every trial of earlier points
and every earlier trial of that point succeeding), `runPoints` returns
exactly that error, converted once. The hypotheses constrain no
invocation after the failing one, so the result is independent of the
remaining trials and workload points. -/
theorem runPoints_fail {W E F : Type} (dispW : W → String) (name : String)
    (rampUp repeatCount : ℕ) (conv : E → F) (trial : ℕ → ℕ → Except E ℕ) :
    ∀ (ws : List W) (k0 k m : ℕ) (e : E),
      k < ws.length →
      (∀ j, j < k → ∀ i, i < rampUp + repeatCount →
        ∃ d, trial (k0 + j) i = .ok d) →
      m < rampUp + repeatCount →
      (∀ i, i < m → ∃ d, trial (k0 + k) i = .ok d) →
      trial (k0 + k) m = .error e →
      runPoints dispW name rampUp repeatCount conv trial k0 ws
        = .error (conv e) := by
  intro ws
  induction ws with
  | nil => intro k0 k m e hk _ _ _ _; simp at hk
  | cons w ws ih =>
    intro k0 k m e hk hprevPoints hm hbefore herr
    simp only [runPoints]
    cases k with
    | zero =>
      have hbefore' : ∀ i, i < m → ∃ d, trial k0 i = .ok d := hbefore
      have herr' : trial k0 m = .error e := herr
      by_cases hmr : m < rampUp
      · have hramp : rampUpLoop (trial k0) 0 rampUp = some e := by
          refine rampUpLoop_err (trial k0) rampUp 0 m e hmr ?_ ?_
          · intro i hi
            obtain ⟨d, hd⟩ := hbefore' i (by omega)
            exact ⟨d, by rwa [Nat.zero_add]⟩
          · rwa [Nat.zero_add]
        rw [hramp]
      · have hramp : rampUpLoop (trial k0) 0 rampUp = none := by
          refine rampUpLoop_ok_none (trial k0) rampUp 0 ?_
          intro i hi
          obtain ⟨d, hd⟩ := hbefore' i (by omega)
          exact ⟨d, by rwa [Nat.zero_add]⟩
        have hmeas : measureLoop (trial k0) rampUp repeatCount = .error e := by
          refine measureLoop_err (trial k0) repeatCount rampUp (m - rampUp) e
            (by omega) ?_ ?_
          · intro i hi
            exact hbefore' (rampUp + i) (by omega)
          · have hsum : rampUp + (m - rampUp) = m := by omega
            rwa [hsum]
        rw [hramp, hmeas]
    | succ k' =>
      have hfirst : ∀ i, i < rampUp + repeatCount → ∃ d, trial k0 i = .ok d :=
        fun i hi => hprevPoints 0 (Nat.succ_pos k') i hi
      have hramp : rampUpLoop (trial k0) 0 rampUp = none := by
        refine rampUpLoop_ok_none (trial k0) rampUp 0 ?_
        intro i hi
        obtain ⟨d, hd⟩ := hfirst i (by omega)
        exact ⟨d, by rwa [Nat.zero_add]⟩
      obtain ⟨ds, hds, _⟩ := measureLoop_ok (trial k0) repeatCount rampUp
        (fun i hi => hfirst (rampUp + i) (by omega))
      have hrec :
          runPoints dispW name rampUp repeatCount conv trial (k0 + 1) ws
            = .error (conv e) := by
        refine ih (k0 + 1) k' m e (by simpa using hk) ?_ hm ?_ ?_
        · intro j hj i hi
          have hsum : k0 + 1 + j = k0 + (j + 1) := by omega
          rw [hsum]
          exact hprevPoints (j + 1) (by omega) i hi
        · intro i hi
          have hsum : k0 + 1 + k' = k0 + (k' + 1) := by omega
          rw [hsum]
          exact hbefore i hi
        · have hsum : k0 + 1 + k' = k0 + (k' + 1) := by omega
          rw [hsum]
          exact herr
      rw [hramp, hds, hrec]

/-- C5: when the workload oracle fails for the first time at trial `m`
(ramp-up or measured) of the workload point at position `k`, the whole
run returns that error converted once through the caller-facing error
channel, and no summary is produced; nothing after the failing
invocation is constrained, so remaining trials and points cannot affect
the outcome. -/
theorem run_fail_fast {W E F : Type} (b : Benchmark W) (dispW : W → String)
    (conv : E → F) (trial : ℕ → ℕ → Except E ℕ) (k m : ℕ) (e : E)
    (hk : k < b.work.length)
    (hprevPoints : ∀ j, j < k → ∀ i, i < b.rampUp + b.repeatCount →
      ∃ d, trial j i = .ok d)
    (hm : m < b.rampUp + b.repeatCount)
    (hbefore : ∀ i, i < m → ∃ d, trial k i = .ok d)
    (herr : trial k m = .error e) :
    b.run dispW conv trial = .error (conv e) := by
  have hfail := runPoints_fail dispW b.name b.rampUp b.repeatCount conv trial
    b.work 0 k m e hk
    (fun j hj i hi => by rw [Nat.zero_add]; exact hprevPoints j hj i hi)
    hm
    (fun i hi => by rw [Nat.zero_add]; exact hbefore i hi)
    (by rw [Nat.zero_add]; exact herr)
  unfold Benchmark.run
  rw [hfail]

/-- Witness for C5: two workload points, ramp-up 1, repeat 2; the second
point's first measured trial (invocation index 1) fails with "boom". -/
theorem run_fail_fast_witness :
    (Benchmark.mk "b" "cfg" ([10, 20] : List ℕ) 2 1).run
        (fun w => toString w) (fun e : String => e)
        (fun k i => if k = 1 ∧ i = 1 then Except.error "boom" else Except.ok 7)
      = .error "boom" :=
  run_fail_fast _ _ _ _ 1 1 "boom" (by decide)
    (fun j hj i _ => ⟨7, by simp [Nat.lt_one_iff.mp hj]⟩)
    (by decide)
    (fun i hi => ⟨7, by simp [Nat.lt_one_iff.mp hi]⟩)
    (by simp)

/-- C9: for every list of measured durations, the summary's standard
deviation is present exactly when at least 2 samples exist; with fewer
than 2 samples it is absent (`none`, not zero and not an error) and its
formatted-string field is the literal string `"null"`. -/
theorem std_dev_presence (name : String) (rampUp repeatCount : ℕ)
    (durations : List ℕ) :
    ((summarizeDurations name rampUp repeatCount durations).stdDev.isSome
        = true ↔ 2 ≤ durations.length)
    ∧ (durations.length < 2 →
        (summarizeDurations name rampUp repeatCount durations).stdDev = none
        ∧ (summarizeDurations name rampUp repeatCount durations).stdDevStr
            = "null") := by
  have hlenmap : (List.map (fun d : ℕ => (d : ℚ)) durations).length = durations.length := by
    exact List.length_map _ _
  constructor
  · simp only [summarizeDurations, RunSummary.make, stdDevOf, hlenmap]
    split
    · rename_i hlen
      simp only [Option.isSome_none, Bool.false_eq_true, false_iff]
      omega
    · rename_i hlen
      simp only [Option.isSome_some, true_iff]
      omega
  · intro hlen
    have hnone : stdDevOf (List.map (fun d : ℕ => (d : ℚ)) durations) = none := by
      simp only [stdDevOf, hlenmap]
      split
      · rfl
      · rename_i hc
        omega
    constructor
    · simp only [summarizeDurations, RunSummary.make]
      exact hnone
    · simp only [summarizeDurations, RunSummary.make]
      rw [hnone]
      rfl

/-- Witness for C9 at the single-sample list `[5]`. -/
theorem std_dev_presence_witness :
    (((summarizeDurations "b" 1 1 [5]).stdDev.isSome = true ↔
        2 ≤ ([5] : List ℕ).length)
      ∧ (([5] : List ℕ).length < 2 →
          (summarizeDurations "b" 1 1 [5]).stdDev = none
          ∧ (summarizeDurations "b" 1 1 [5]).stdDevStr = "null"))
    ∧ (summarizeDurations "b" 1 1 [5]).stdDev = none :=
  ⟨std_dev_presence "b" 1 1 [5], ((std_dev_presence "b" 1 1 [5]).2 (by decide)).1⟩

/-- `HashMap::insert` modelled on an association list: replace the value
at an existing key, otherwise append the new entry. Only lookup
behaviour is observable through the source's API, so entry order is a
representation choice. -/
def hmInsert {β : Type} : List (String × β) → String → β → List (String × β)
  | [], k, v => [(k, v)]
  | (a, b) :: t, k, v =>
    if a = k then (k, v) :: t else (a, b) :: hmInsert t k v

/-- `HashMap::get` modelled on an association list. -/
def hmLookup {β : Type} : List (String × β) → String → Option β
  | [], _ => none
  | (a, b) :: t, k => if a = k then some b else hmLookup t k

/-- `HashSet::insert` (the `names` set of `Benchmarks::add`): returns
the updated set and whether the value was newly inserted. -/
def hsInsert (s : List String) (x : String) : List String × Bool :=
  if s.contains x then (s, false) else (s ++ [x], true)

/-- `Benchmarks` (src/benchmarks.rs): suite name, the set of registered
benchmark names, the registered benchmark definitions in order, and the
latest per-benchmark series summaries. -/
structure Benchmarks (W : Type) where
  name : String
  names : List String
  benchmarks : List (Benchmark W)
  summaries : List (String × SeriesSummary)

/-- `Benchmarks::new`. -/
def Benchmarks.mk0 (W : Type) (name : String) : Benchmarks W :=
  ⟨name, [], [], []⟩

/-- `Benchmarks::add` (src/benchmarks.rs, lines 74-102): insert the name
into the `names` set first (the set is mutated even on the zero-repeat
failure path), then fail when the name already existed, then fail when
`repeat == 0`, otherwise push the benchmark. Returns the state after
the call (the source takes `&mut self`) together with the error, if
any. -/
def Benchmarks.add {W : Type} (b : Benchmarks W) (name configStr : String)
    (work : List W) (repeatCount rampUp : ℕ) :
    Benchmarks W × Option String :=
  let ins := hsInsert b.names name
  let b1 : Benchmarks W := { b with names := ins.1 }
  if ins.2 = false then
    (b1, some ("Benchmark with identical name exists: " ++ name))
  else if repeatCount = 0 then
    (b1, some "Cannot benchmark 0 runs")
  else
    ({ b1 with benchmarks :=
        b1.benchmarks ++ [⟨name, configStr, work, repeatCount, rampUp⟩] },
      none)

/-- `Summary` (src/summary.rs): suite name and the per-benchmark series
map. The `created_at` timestamp is wall-clock output not used by any
compared behaviour and is omitted. -/
structure Summary where
  name : String
  series : List (String × SeriesSummary)
deriving DecidableEq, Repr

/-- `Summary::new`: named, with an empty series map. -/
def Summary.mk0 (name : String) : Summary :=
  ⟨name, []⟩

/-- `AnalysisResult` (src/analysis_result.rs): suite name, names of new
series, and the equal and divergent per-series comparison maps. -/
structure AnalysisResult where
  name : String
  newSeries : List String
  equalSeries : List (String × List (String × BenchmarkComparison))
  divergentSeries : List (String × List (String × BenchmarkComparison))
deriving DecidableEq, Repr

/-- `AnalysisResult::new`. -/
def AnalysisResult.mk0 (name : String) : AnalysisResult :=
  ⟨name, [], [], []⟩

/-- `AnalysisResult::add_new`: insert a name into the new-series set. -/
def AnalysisResult.addNew (ar : AnalysisResult) (name : String) :
    AnalysisResult :=
  { ar with newSeries := (hsInsert ar.newSeries name).1 }

/-- `AnalysisResult::add` (src/analysis_result.rs, lines 31-47): fold
over the comparisons starting from `true`, turning `false` on any `Less`
or `Greater`; insert the series into the equal map when the fold stays
`true`, into the divergent map otherwise. -/
def AnalysisResult.add (ar : AnalysisResult) (name : String)
    (comparisons : List (String × BenchmarkComparison)) : AnalysisResult :=
  let equal := comparisons.foldl
    (fun eq pc =>
      match pc.2 with
      | .Less _ _ _ _ => false
      | .Equal _ _ _ _ => eq
      | .Greater _ _ _ _ => false)
    true
  if equal then
    { ar with equalSeries := hmInsert ar.equalSeries name comparisons }
  else
    { ar with divergentSeries := hmInsert ar.divergentSeries name comparisons }

/-- `Benchmarks::compare_series` (src/benchmarks.rs, lines 242-277):
error when either point list is empty; error when the ordered point
lists differ; otherwise insert one median comparison per index into the
comparison map. -/
def compareSeries (currentSeries previousSeries : List (String × RunSummary))
    (threshold : ℚ) : Except String (List (String × BenchmarkComparison)) :=
  let currentPoints := currentSeries.map Prod.fst
  let previousPoints := previousSeries.map Prod.fst
  if currentPoints.isEmpty || previousPoints.isEmpty then
    .error "Can compare only non empty series"
  else if currentPoints ≠ previousPoints then
    .error "Can compare series with identical workload points only"
  else
    .ok ((currentSeries.zip previousSeries).foldl
      (fun m cp =>
        hmInsert m cp.1.1
          (compareMedian cp.1.1 cp.1.2.medianNanos cp.2.2.medianNanos threshold))
      [])

/-- The loop body of `Benchmarks::analyze` over the current summary's
series: names absent from the previous summary are recorded as new,
names present in both are compared, and a comparison error aborts the
whole analysis (the `?` operator in the source). -/
def analyzeLoop (prevSummary : Summary) (threshold : ℚ) :
    List (String × SeriesSummary) → AnalysisResult →
    Except String AnalysisResult
  | [], ar => .ok ar
  | (n, currentSeries) :: rest, ar =>
    match hmLookup prevSummary.series n with
    | none => analyzeLoop prevSummary threshold rest (ar.addNew n)
    | some prevSeries =>
      match compareSeries currentSeries.runs prevSeries.runs threshold with
      | .error e => .error e
      | .ok comparisons =>
        analyzeLoop prevSummary threshold rest (ar.add n comparisons)

/-- `Benchmarks::analyze` (src/benchmarks.rs, lines 283-320) after the
serde JSON parse (external crate): a missing previous summary becomes an
empty `Summary` carrying the suite's own name; differently named
summaries are rejected; otherwise every current series is classified. -/
def analyzeSummary (name : String)
    (currentSeriesMap : List (String × SeriesSummary))
    (prevOpt : Option Summary) (threshold : ℚ) :
    Except String AnalysisResult :=
  let currentSummary : Summary := ⟨name, currentSeriesMap⟩
  let prevSummary := match prevOpt with
    | none => Summary.mk0 name
    | some s => s
  if currentSummary.name ≠ prevSummary.name then
    .error ("Comparing differently named benchmarks.rs: "
      ++ currentSummary.name ++ " <=> " ++ prevSummary.name)
  else
    analyzeLoop prevSummary threshold currentSummary.series
      (AnalysisResult.mk0 currentSummary.name)

/-- C3 counterexample: on an empty suite, registering "a" with
`repeat = 0` fails, but the suite's registered-name set has changed (it
now holds "a"), and the registration of "a" with `repeat = 1` that
succeeds on the original suite fails after the failed call. -/
theorem add_zero_repeat_mutates_cex :
    ((Benchmarks.mk0 ℕ "Test").add "a" "c" [1] 0 0).2
        = some "Cannot benchmark 0 runs"
    ∧ ((Benchmarks.mk0 ℕ "Test").add "a" "c" [1] 0 0).1.names
        ≠ (Benchmarks.mk0 ℕ "Test").names
    ∧ ((Benchmarks.mk0 ℕ "Test").add "a" "c" [1] 1 0).2 = none
    ∧ (((Benchmarks.mk0 ℕ "Test").add "a" "c" [1] 0 0).1.add "a" "c" [1] 1 0).2
        = some "Benchmark with identical name exists: a" := by
  refine ⟨rfl, ?_, rfl, rfl⟩
  simp [Benchmarks.add, Benchmarks.mk0, hsInsert]

/-- C3 amended: `Benchmarks::add` fails on a duplicate name leaving the
state unchanged; it fails on `repeat = 0` with a fresh name, adding no
benchmark, but the fresh name stays recorded in the registered-name set
(the set is mutated before the repeat check), so a registration of that
name that was valid before the failed call is no longer valid after it;
a valid registration records the name and appends the benchmark. -/
theorem benchmarks_add_spec {W : Type} (b : Benchmarks W)
    (name configStr : String) (work : List W) (repeatCount rampUp : ℕ) :
    b.add name configStr work repeatCount rampUp =
      if b.names.contains name = true then
        (b, some ("Benchmark with identical name exists: " ++ name))
      else if repeatCount = 0 then
        ({ b with names := b.names ++ [name] }, some "Cannot benchmark 0 runs")
      else
        ({ b with
            names := b.names ++ [name]
            benchmarks := b.benchmarks
              ++ [⟨name, configStr, work, repeatCount, rampUp⟩] },
          none) := by
  unfold Benchmarks.add hsInsert
  by_cases hm : name ∈ b.names
  · simp [hm]
  · by_cases hr : repeatCount = 0 <;> simp [hm, hr]

/-- The equality fold of `AnalysisResult::add` computes "every
comparison is the `Equal` variant". -/
theorem foldl_equal_eq_all (comps : List (String × BenchmarkComparison)) :
    ∀ (b : Bool),
      comps.foldl
        (fun eq pc =>
          match pc.2 with
          | .Less _ _ _ _ => false
          | .Equal _ _ _ _ => eq
          | .Greater _ _ _ _ => false)
        b
      = (b && comps.all (fun pc => pc.2.isEqual)) := by
  induction comps with
  | nil => intro b; simp
  | cons pc rest ih =>
    intro b
    simp only [List.foldl_cons, List.all_cons, ih]
    cases h : pc.2 <;>
      simp [BenchmarkComparison.isEqual, h, Bool.and_assoc]

/-- Any point not `Equal` is the negation of all points `Equal`. -/
theorem any_not_equal_eq_not_all (comps : List (String × BenchmarkComparison)) :
    comps.any (fun pc => !(pc.2.isEqual))
      = !(comps.all (fun pc => pc.2.isEqual)) := by
  induction comps with
  | nil => rfl
  | cons pc rest ih => simp [ih]

/-- C7: `AnalysisResult::add` places the series in the divergent map
exactly when at least one of its points is `Less` or `Greater` (not
`Equal`), and in the equal map exactly when every point is `Equal`; an
all-`Equal` series never touches the divergent map. -/
theorem analysis_result_add_spec (ar : AnalysisResult) (name : String)
    (comps : List (String × BenchmarkComparison)) :
    (AnalysisResult.add ar name comps).divergentSeries
        = (if comps.any (fun pc => !(pc.2.isEqual)) = true then
            hmInsert ar.divergentSeries name comps
          else ar.divergentSeries)
    ∧ (AnalysisResult.add ar name comps).equalSeries
        = (if comps.all (fun pc => pc.2.isEqual) = true then
            hmInsert ar.equalSeries name comps
          else ar.equalSeries)
    ∧ (AnalysisResult.add ar name comps).newSeries = ar.newSeries := by
  unfold AnalysisResult.add
  rw [foldl_equal_eq_all comps true, any_not_equal_eq_not_all]
  cases hall : comps.all (fun pc => pc.2.isEqual) <;> simp [hall]

/-- Inserting a fresh key into the association-list map appends it. -/
theorem hmInsert_append {β : Type} :
    ∀ (m : List (String × β)) (k : String) (v : β),
      k ∉ m.map Prod.fst → hmInsert m k v = m ++ [(k, v)] := by
  intro m
  induction m with
  | nil => intro k v _; rfl
  | cons p t ih =>
    obtain ⟨a, bv⟩ := p
    intro k v h
    simp only [List.map_cons, List.mem_cons] at h
    push_neg at h
    simp only [hmInsert]
    rw [if_neg (fun he => h.1 he.symm), ih k v h.2]
    rfl

/-- The comparison map built by `compare_series` has one entry per
zipped point pair, keyed in order, when the keys are distinct. -/
theorem foldl_insert_keys (threshold : ℚ) :
    ∀ (ps : List ((String × RunSummary) × (String × RunSummary)))
      (acc : List (String × BenchmarkComparison)),
      (acc.map Prod.fst ++ ps.map (fun cp => cp.1.1)).Nodup →
      ((ps.foldl
        (fun m cp => hmInsert m cp.1.1
          (compareMedian cp.1.1 cp.1.2.medianNanos cp.2.2.medianNanos threshold))
        acc).map Prod.fst)
        = acc.map Prod.fst ++ ps.map (fun cp => cp.1.1) := by
  intro ps
  induction ps with
  | nil => intro acc _; simp
  | cons cp rest ih =>
    intro acc hnd
    have hk : cp.1.1 ∉ acc.map Prod.fst := by
      intro hmem
      rw [List.map_cons, List.nodup_append] at hnd
      exact hnd.2.2 hmem (List.mem_cons_self _ _)
    simp only [List.foldl_cons]
    rw [hmInsert_append acc cp.1.1 _ hk]
    have hnd' : ((acc ++ [(cp.1.1,
        compareMedian cp.1.1 cp.1.2.medianNanos cp.2.2.medianNanos
          threshold)]).map Prod.fst
        ++ rest.map (fun cp => cp.1.1)).Nodup := by
      simp only [List.map_append, List.map_cons, List.map_nil] at hnd ⊢
      simpa [List.append_assoc] using hnd
    rw [ih _ hnd']
    simp [List.append_assoc]

/-- C6: `compare_series` fails when either series is empty, fails when
the ordered workload-point identity lists differ (even for two non-empty
same-length lists), and otherwise succeeds with one comparison per
workload point. -/
theorem compare_series_spec
    (currentSeries previousSeries : List (String × RunSummary))
    (threshold : ℚ) :
    ((currentSeries = [] ∨ previousSeries = []) →
      compareSeries currentSeries previousSeries threshold
        = .error "Can compare only non empty series")
    ∧ (currentSeries ≠ [] → previousSeries ≠ [] →
        currentSeries.map Prod.fst ≠ previousSeries.map Prod.fst →
        compareSeries currentSeries previousSeries threshold
          = .error "Can compare series with identical workload points only")
    ∧ (currentSeries ≠ [] →
        currentSeries.map Prod.fst = previousSeries.map Prod.fst →
        (currentSeries.map Prod.fst).Nodup →
        ∃ m, compareSeries currentSeries previousSeries threshold = .ok m
          ∧ m.map Prod.fst = currentSeries.map Prod.fst) := by
  refine ⟨?_, ?_, ?_⟩
  · intro h
    cases h with
    | inl h => subst h; simp [compareSeries]
    | inr h => subst h; simp [compareSeries]
  · intro h1 h2 hne
    simp [compareSeries, h1, h2, hne]
  · intro h1 heq hnd
    have h2 : previousSeries ≠ [] := by
      intro hp
      rw [hp] at heq
      simp at heq
      exact h1 heq
    have hlen : currentSeries.length = previousSeries.length := by
      have := congrArg List.length heq
      simpa using this
    have hzip : (currentSeries.zip previousSeries).map (fun cp => cp.1.1)
        = currentSeries.map Prod.fst := by
      have hfst : (currentSeries.zip previousSeries).map Prod.fst
          = currentSeries := List.map_fst_zip _ _ (le_of_eq hlen)
      calc (currentSeries.zip previousSeries).map (fun cp => cp.1.1)
          = ((currentSeries.zip previousSeries).map Prod.fst).map Prod.fst := by
            rw [List.map_map]
            rfl
        _ = currentSeries.map Prod.fst := by rw [hfst]
    refine ⟨(currentSeries.zip previousSeries).foldl
        (fun m cp => hmInsert m cp.1.1
          (compareMedian cp.1.1 cp.1.2.medianNanos cp.2.2.medianNanos threshold))
        [], ?_, ?_⟩
    · simp [compareSeries, h1, h2, heq]
    · have hnd' : (([] : List (String × BenchmarkComparison)).map Prod.fst
          ++ (currentSeries.zip previousSeries).map (fun cp => cp.1.1)).Nodup := by
        simpa [hzip] using hnd
      rw [foldl_insert_keys threshold _ _ hnd']
      simpa using hzip

/-- Witness for C6 on two singleton series sharing the point "1". -/
theorem compare_series_spec_witness :
    ∃ m, compareSeries [("1", summarizeDurations "b" 1 1 [5])]
        [("1", summarizeDurations "b" 1 1 [7])] 0 = .ok m
      ∧ m.map Prod.fst
          = [("1", summarizeDurations "b" 1 1 [5])].map Prod.fst :=
  (compare_series_spec _ _ 0).2.2 (by simp) rfl (by simp)

/-- Membership in the name set after a `HashSet::insert`. -/
theorem hsInsert_mem (s : List String) (x n : String) :
    n ∈ (hsInsert s x).1 ↔ (n ∈ s ∨ n = x) := by
  unfold hsInsert
  split
  · rename_i h
    have hx : x ∈ s := by simpa using h
    constructor
    · exact Or.inl
    · intro hc
      cases hc with
      | inl h' => exact h'
      | inr h' => exact h' ▸ hx
  · simp

/-- Against an empty previous summary, the analysis loop records every
current series name as new and builds no comparisons. -/
theorem analyzeLoop_empty_prev (nm : String) (threshold : ℚ) :
    ∀ (ss : List (String × SeriesSummary)) (ar : AnalysisResult),
      ∃ ar', analyzeLoop (Summary.mk0 nm) threshold ss ar = .ok ar'
        ∧ ar'.equalSeries = ar.equalSeries
        ∧ ar'.divergentSeries = ar.divergentSeries
        ∧ (∀ n, n ∈ ar'.newSeries ↔ (n ∈ ar.newSeries ∨ n ∈ ss.map Prod.fst)) := by
  intro ss
  induction ss with
  | nil => intro ar; exact ⟨ar, rfl, rfl, rfl, fun n => by simp⟩
  | cons p rest ih =>
    obtain ⟨pn, ps⟩ := p
    intro ar
    obtain ⟨ar', h1, h2, h3, h4⟩ := ih (ar.addNew pn)
    refine ⟨ar', ?_, ?_, ?_, ?_⟩
    · simp only [analyzeLoop]
      exact h1
    · simpa [AnalysisResult.addNew] using h2
    · simpa [AnalysisResult.addNew] using h3
    · intro n
      rw [h4 n]
      simp only [AnalysisResult.addNew, hsInsert_mem, List.map_cons,
        List.mem_cons]
      tauto

/-- C8: analyzing with no previous summary succeeds for every threshold,
marks exactly the current summary's benchmark names as new, and leaves
both the equal and the divergent series sets empty. -/
theorem analyze_none_all_new (name : String)
    (summaries : List (String × SeriesSummary)) (threshold : ℚ) :
    ∃ ar, analyzeSummary name summaries none threshold = .ok ar
      ∧ (∀ n, n ∈ ar.newSeries ↔ n ∈ summaries.map Prod.fst)
      ∧ ar.equalSeries = [] ∧ ar.divergentSeries = [] := by
  obtain ⟨ar', h1, h2, h3, h4⟩ :=
    analyzeLoop_empty_prev name threshold summaries (AnalysisResult.mk0 name)
  refine ⟨ar', ?_, ?_, by simpa [AnalysisResult.mk0] using h2,
    by simpa [AnalysisResult.mk0] using h3⟩
  · simp only [analyzeSummary]
    rw [if_neg (fun h => h rfl)]
    exact h1
  · intro n
    rw [h4 n]
    simp [AnalysisResult.mk0]
